import Mathlib

/-!
Shallow embedding of the graph-convolution core of the `physics_gnn`
repository (files `src/script/model/graphconv.py`,
`src/script/model/gnn/graphconv.py`, `src/script/model/kernels/general.py`,
`src/Atlas_nyu/statistics.py`).

Tensors of shape (batch, d1, d2) are embedded as functions `ℕ → ℕ → ℕ → K`
together with explicitly passed shape arguments; out-of-range indices are
simply never constrained by the theorems.  Code that has no division-free /
transcendental-free meaning over a general ordered field is stated over `ℝ`.
-/

namespace PhysicsGnn

/-- A (batch, d1, d2)-shaped tensor, embedded as an unbounded index function. -/
abbrev T3 (K : Type) := ℕ → ℕ → ℕ → K

section Generic

variable {K : Type} [LinearOrderedField K]

/-- `torch.bmm A B` with inner dimension `m`:
`(A @ B)[b, i, j] = Σ_{k<m} A[b,i,k] * B[b,k,j]`. -/
def bmm (m : ℕ) (A B : T3 K) : T3 K :=
  fun b i j => ∑ k ∈ Finset.range m, A b i k * B b k j

/-- Modelled from the spec: `mean_with_padding` lives in `utils/tensor.py`,
which is not part of the sources; the spec (property 5) defines it as the
mean over only the first `batch_nb_nodes[i]` valid nodes of graph `i`,
excluding padded nodes exactly.  The `adj_mask` argument of the Python
function is redundant with `batch_nb_nodes` for this definition. -/
def meanWithPadding (emb : T3 K) (nbNodes : ℕ → ℕ) : ℕ → ℕ → K :=
  fun b f => (∑ i ∈ Finset.range (nbNodes b), emb b f i) / (nbNodes b : K)

/-- Concatenation of two tensors along dimension 1 (`torch.cat _ 1`),
the first block having size `d`. -/
def cat1 (d : ℕ) (A B : T3 K) : T3 K :=
  fun b f j => if f < d then A b f j else B b (f - d) j

/-- The concatenated `spread` tuple built by `GraphOpConv.forward`
(`src/script/model/graphconv.py`, lines 67-75) in the `ops is not None`
branch: identity embedding, broadcast masked average, then the chunks of
`bmm(emb_in, ops).split(nb_node, 2)`, all concatenated on feature maps.
`sfull` is the un-split `bmm(emb_in, ops)`. -/
def gocSpread (in_fm n : ℕ) (emb avg sfull : T3 K) : T3 K :=
  fun b f j =>
    if f < in_fm then emb b f j
    else if f < 2 * in_fm then avg b (f - in_fm) j
    else sfull b ((f - 2 * in_fm) % in_fm) (((f - 2 * in_fm) / in_fm) * n + j)

/-- `GraphOpConv.forward` (`src/script/model/graphconv.py`, lines 59-82).
`weight` is the learned weight of shape `(out_fm, in_fm * (nb_op + 2))`
(the Python weight carries a broadcast batch dimension of size 1), `bias`
the learned bias, broadcast over batch and nodes.  When `ops` is `None`
only the identity and the broadcast masked average are concatenated. -/
def gocForward (in_fm nbop n : ℕ) (weight : ℕ → ℕ → K) (bias : ℕ → K)
    (ops : Option (T3 K)) (emb : T3 K) (nbNodes : ℕ → ℕ) : T3 K :=
  let avg : T3 K := fun b f _ => meanWithPadding emb nbNodes b f
  let spread : T3 K :=
    match ops with
    | none => cat1 in_fm emb avg
    | some O => gocSpread in_fm n emb avg (bmm n emb O)
  fun b o j =>
    (∑ k ∈ Finset.range (in_fm * (nbop + 2)), weight o k * spread b k j) + bias o

/-- The `c`-th stacked operator inside a concatenated operator tensor
`ops : (batch, n, n * nb_op)`: columns `[c*n, (c+1)*n)`. -/
def opChunk (n c : ℕ) (O : T3 K) : T3 K :=
  fun b k j => O b k (c * n + j)

/-- Spec-side description of the concatenated feature vector of
`GraphOpConv` ("the concatenation of: the identity (unmodified) embedding,
the masked per-graph mean of the embedding broadcast to all nodes, and one
neighbor-aggregated block bmm(emb_in, ops) per operator"): block `c` of the
operator part is the batched product of the embedding with the `c`-th
stacked operator. -/
def gocSpreadSpec (in_fm n : ℕ) (emb avg O : T3 K) : T3 K :=
  fun b f j =>
    if f < in_fm then emb b f j
    else if f < 2 * in_fm then avg b (f - in_fm) j
    else bmm n emb (opChunk n ((f - 2 * in_fm) / in_fm) O) b
      ((f - 2 * in_fm) % in_fm) j

/-- Spec-side affine transform: learned weight multiply plus bias applied to
a concatenated feature tensor. -/
def affineApply (width : ℕ) (weight : ℕ → ℕ → K) (bias : ℕ → K)
    (S : T3 K) : T3 K :=
  fun b o j => (∑ k ∈ Finset.range width, weight o k * S b k j) + bias o

/-- `torch.nn.functional.relu`, entrywise. -/
def relu (x : K) : K := max x 0

/-- The constructor check of `ResGOpConv`
(`src/script/model/graphconv.py`, lines 99-108): an odd `out_fm` raises a
`ValueError`; otherwise the two half-size sub-convolutions are built with
`half_out_fm = out_fm / 2` feature maps each. -/
def resGOpConvInit (out_fm : ℕ) : Except String ℕ :=
  if out_fm % 2 ≠ 0 then
    Except.error
      ("ResGOpConv requires event number of output feature maps : "
        ++ toString out_fm)
  else Except.ok (out_fm / 2)

/-- The constructor check of the `ResGOpConv` variant at
`src/script/model/gnn/graphconv.py`, lines 124-133 (same check, different
message). -/
def resGOpConvInitGnn (out_fm : ℕ) : Except String ℕ :=
  if out_fm % 2 ≠ 0 then
    Except.error
      ("ResGOpConv requires even # of output feature maps: "
        ++ toString out_fm)
  else Except.ok (out_fm / 2)

/-- The value computed by `ResGOpConv.forward`
(`src/script/model/graphconv.py`, lines 110-124), NaN bookkeeping aside:
the concatenation, on feature maps, of a linear `GraphOpConv` branch with
`half` feature maps and a second independent ReLU-activated branch. -/
def resGOpConvForward (in_fm half nbop n : ℕ) (wl : ℕ → ℕ → K)
    (bl : ℕ → K) (wn : ℕ → ℕ → K) (bn : ℕ → K) (ops : Option (T3 K))
    (emb : T3 K) (nbNodes : ℕ → ℕ) : T3 K :=
  cat1 half (gocForward in_fm nbop n wl bl ops emb nbNodes)
    (fun b f j => relu (gocForward in_fm nbop n wn bn ops emb nbNodes b f j))

/-- The concatenated `spread` tuple built by the `GraphOpConv.forward`
variant at `src/script/model/gnn/graphconv.py`, lines 102-112: this variant
uses the (batch, nodes, feature_maps) layout, multiplies `bmm(ops, emb_in)`,
splits on dimension 1 in chunks of `nb_node`, and concatenates
`(emb_in,) + spread` on dimension 2 — the `avg` channel is commented out.
`sfull` is the un-split `bmm(ops, emb_in)`. -/
def gnnSpread (n fmap : ℕ) (emb sfull : T3 K) : T3 K :=
  fun b i g =>
    if g < fmap then emb b i g
    else sfull b (((g - fmap) / fmap) * n + i) ((g - fmap) % fmap)

/-- The `c`-th stacked operator inside an operator tensor concatenated on
dimension 1 (`(batch, n * nb_op, n)` layout of the gnn variant's
`join_operators`): rows `[c*n, (c+1)*n)`. -/
def opRowChunk (n c : ℕ) (O : T3 K) : T3 K :=
  fun b r k => O b (c * n + r) k

/-- Spec-side description of the gnn variant's concatenated features:
identity embedding followed by one `bmm(opRowChunk c, emb_in)` block per
operator — no average channel. -/
def gnnSpreadSpec (n fmap : ℕ) (emb O : T3 K) : T3 K :=
  fun b i g =>
    if g < fmap then emb b i g
    else bmm n (opRowChunk n ((g - fmap) / fmap) O) emb b i ((g - fmap) % fmap)

/-- `GraphOpConv.forward` of the gnn variant
(`src/script/model/gnn/graphconv.py`, lines 85-116).  The `ops is None`
branch references the commented-out `avg` variable, which raises a Python
`NameError` at run time; the non-`None` branch applies `self.fc`
(`nn.Linear(in_fm * (nb_op + 1), out_fm)`) to the identity/operator
concatenation.  `batchNbNodes` and `adjMask` are accepted and ignored, as
in the source. -/
def gnnGocForward (n fmap nbop : ℕ) (w : ℕ → ℕ → K) (bias : ℕ → K)
    (ops : Option (T3 K)) (emb : T3 K) (batchNbNodes : ℕ → ℕ)
    (adjMask : T3 K) : Except String (T3 K) :=
  match ops with
  | none => Except.error "NameError: name avg is not defined"
  | some O =>
    Except.ok (fun b i o =>
      (∑ g ∈ Finset.range (fmap * (nbop + 1)),
        w o g * gnnSpread n fmap emb (bmm n O emb) b i g) + bias o)

end Generic

/-! ### NaN-tracking semantics for the residual convolution (C5)

Floating-point NaNs are modelled by `Option K`: `none` is NaN and every
arithmetic operation propagates it, matching IEEE NaN propagation through
the adds, multiplies, divisions and `relu`/`max` used by `GraphOpConv` and
`ResGOpConv`.  `check_for_nan` lives in `utils/tensor.py`, which is not
part of the sources; it is modelled from the spec ("NaN detection",
"asserts/aborts if NaNs are detected") as a scan of the in-range entries,
which is also exactly what the in-source assertion
`(emb_out != emb_out).data.sum() > 0` does. -/

/-- A (batch, d1, d2) tensor of possibly-NaN values. -/
abbrev T3O (K : Type) := ℕ → ℕ → ℕ → Option K

section NanWorld

variable {K : Type} [LinearOrderedField K] [DecidableEq K]

/-- NaN-propagating addition. -/
def oadd (a b : Option K) : Option K :=
  a.bind fun x => b.map fun y => x + y

/-- NaN-propagating multiplication. -/
def omul (a b : Option K) : Option K :=
  a.bind fun x => b.map fun y => x * y

/-- NaN-propagating division; division by zero produces NaN. -/
def odiv (a b : Option K) : Option K :=
  a.bind fun x => b.bind fun y => if y = 0 then none else some (x / y)

/-- NaN-propagating `relu` (`max` with a NaN is NaN, as for torch). -/
def orelu (a : Option K) : Option K :=
  a.map fun x => max x 0

/-- NaN-propagating sum of `m` terms. -/
def osum : ℕ → (ℕ → Option K) → Option K
  | 0, _ => some 0
  | m + 1, f => oadd (f m) (osum m f)

/-- `torch.bmm` under NaN propagation. -/
def obmm (m : ℕ) (A B : T3O K) : T3O K :=
  fun b i j => osum m fun k => omul (A b i k) (B b k j)

/-- `mean_with_padding` under NaN propagation (see `meanWithPadding`). -/
def omeanWithPadding (emb : T3O K) (nbNodes : ℕ → ℕ) : ℕ → ℕ → Option K :=
  fun b f => odiv (osum (nbNodes b) fun i => emb b f i) (some (nbNodes b : K))

/-- Concatenation along dimension 1 under NaN propagation. -/
def ocat1 (d : ℕ) (A B : T3O K) : T3O K :=
  fun b f j => if f < d then A b f j else B b (f - d) j

/-- The `spread` concatenation of `GraphOpConv.forward` under NaN
propagation (see `gocSpread`). -/
def ogocSpread (in_fm n : ℕ) (emb avg sfull : T3O K) : T3O K :=
  fun b f j =>
    if f < in_fm then emb b f j
    else if f < 2 * in_fm then avg b (f - in_fm) j
    else sfull b ((f - 2 * in_fm) % in_fm) (((f - 2 * in_fm) / in_fm) * n + j)

/-- `GraphOpConv.forward` under NaN propagation (see `gocForward`). -/
def ogocForward (in_fm nbop n : ℕ) (w : ℕ → ℕ → Option K)
    (bias : ℕ → Option K) (ops : Option (T3O K)) (emb : T3O K)
    (nbNodes : ℕ → ℕ) : T3O K :=
  let avg : T3O K := fun b f _ => omeanWithPadding emb nbNodes b f
  let spread : T3O K :=
    match ops with
    | none => ocat1 in_fm emb avg
    | some O => ogocSpread in_fm n emb avg (obmm n emb O)
  fun b o j =>
    oadd (osum (in_fm * (nbop + 2)) fun k => omul (w o k) (spread b k j))
      (bias o)

/-- NaN scan over the in-range entries of a (B, F, N) tensor; this is both
the spec-modelled `check_for_nan` test and the in-source
`(emb_out != emb_out).data.sum() > 0` assertion condition. -/
def hasNaN (B F N : ℕ) (X : T3O K) : Bool :=
  (List.range B).any fun b =>
    (List.range F).any fun f =>
      (List.range N).any fun j => (X b f j).isNone

/-- `ResGOpConv.forward` (`src/script/model/graphconv.py`, lines 110-124)
under NaN propagation: the two half-size sub-convolutions are checked by
`check_for_nan` (error messages as in the source), the second branch is
ReLU-activated, and the concatenated output is re-checked by the in-source
assertion before being returned.  `B` is the batch size and `half` the
feature-map count of each branch. -/
def oresForward (B in_fm half nbop n : ℕ) (wl : ℕ → ℕ → Option K)
    (bl : ℕ → Option K) (wn : ℕ → ℕ → Option K) (bn : ℕ → Option K)
    (ops : Option (T3O K)) (emb : T3O K) (nbNodes : ℕ → ℕ) :
    Except String (T3O K) :=
  let lin := ogocForward in_fm nbop n wl bl ops emb nbNodes
  if hasNaN B half n lin then Except.error "NAN in resgconv : linear"
  else
    let nlin := ogocForward in_fm nbop n wn bn ops emb nbNodes
    if hasNaN B half n nlin then Except.error "NAN in resgconv : nlinear"
    else
      let out := ocat1 half lin fun b f j => orelu (nlin b f j)
      if hasNaN B (half + half) n out then
        Except.error "NAN in first gconv : before return"
      else Except.ok out

end NanWorld

/-! ### Kernel caching state (C8)

`Adj_Kernel.__init__` (`src/script/model/kernels/general.py`, lines 72-89)
either monkey-patches `save_adj` to a no-op and `update` to `forward`
(`layerwise=True`), or keeps the caching `_save_adj` and the base `update`
that returns `self.adj_matrix`.  The mutable kernel state is the pair of
the construction-time `layerwise` flag and the optional cached adjacency;
`update` returns `none` when no adjacency was ever cached (the Python
`AttributeError` on `self.adj_matrix`). -/

/-- Mutable state of an `Adj_Kernel`: the `layerwise` construction flag and
the last cached adjacency (`self.adj_matrix`), if any. -/
structure KState (K : Type) where
  layerwise : Bool
  cache : Option (T3 K)

/-- `save_adj`: a no-op when `layerwise=True`, otherwise `_save_adj`, which
stores the adjacency in `self.adj_matrix`. -/
def saveAdj {K : Type} (s : KState K) (a : T3 K) : KState K :=
  if s.layerwise then s else { s with cache := some a }

/-- `update`: with `layerwise=True` it is exactly `forward`; otherwise it is
the base-class method returning the cached `self.adj_matrix` (or nothing if
no adjacency was ever cached) without recomputation. -/
def kernelUpdate {K α : Type} (fwd : KState K → α → T3 K × KState K)
    (s : KState K) (x : α) : Option (T3 K) × KState K :=
  if s.layerwise then ((fwd s x).1, (fwd s x).2) else (s.cache, s)

/-! ### Real-valued kernels, GraphNorm and statistics (C2, C3, C6, C7, C8, C10) -/

noncomputable section RealWorld

/-- Modelled from the spec: `sqdist_` lives in `utils/tensor.py`, which is
not part of the sources; the spec describes it as the "pairwise squared
Euclidean distance between node embeddings", summed over the feature axis
of a (batch, fm, nodes) embedding. -/
def sqdist (fm : ℕ) (emb : T3 ℝ) : T3 ℝ :=
  fun b i j => ∑ f ∈ Finset.range fm, (emb b f i - emb b f j) ^ 2

/-- `gaussian` (`src/script/model/kernels/general.py`, lines 222-226):
`adj = (-sqdist * sigma**2).exp()`. -/
def gaussian (sqd : T3 ℝ) (sigma : ℝ) : T3 ℝ :=
  fun b i j => Real.exp (-sqd b i j * sigma ^ 2)

/-- `_delete_diag` (`src/script/model/kernels/general.py`, lines 229-236):
`masked_fill_` of the diagonal with 0.  The diagonal mask itself is built
by `ts.make_tensor_as` from `utils/tensor.py` (not in the sources) and is
modelled from the spec ("optionally zeroes the diagonal"). -/
def deleteDiag (adj : T3 ℝ) : T3 ℝ :=
  fun b i j => if i = j then 0 else adj b i j

/-- `Gaussian.forward` (`src/script/model/kernels/general.py`, lines
272-281): the exponential of squared distances, with the diagonal deleted
when the kernel was built with `diag=False`; the plain Gaussian's
`_apply_norm` is the identity. -/
def gaussianForward (diag : Bool) (fm : ℕ) (emb : T3 ℝ) (sigma : ℝ) : T3 ℝ :=
  let adj := gaussian (sqdist fm emb) sigma
  if diag then adj else deleteDiag adj

/-- `_softmax` flattening (`src/script/model/kernels/general.py`, lines
247-258): the batch of (n, n) matrices is unbound along dimension 0 and
concatenated into a (batch*n, n) matrix; flattened row `r` is row `r % n`
of graph `r / n`. -/
def flattenRows (n : ℕ) (X : T3 ℝ) : ℕ → ℕ → ℝ :=
  fun r j => X (r / n) (r % n) j

/-- `nn.Softmax()` on a 2-D tensor: softmax along each row of length `n`. -/
def softmaxRows (n : ℕ) (M : ℕ → ℕ → ℝ) : ℕ → ℕ → ℝ :=
  fun r j => Real.exp (M r j) / ∑ k ∈ Finset.range n, Real.exp (M r k)

/-- `_softmax` un-flattening: chunk the (batch*n, n) matrix back into a
batch of (n, n) matrices. -/
def unflattenRows (n : ℕ) (M : ℕ → ℕ → ℝ) : T3 ℝ :=
  fun b i j => M (b * n + i) j

/-- `_softmax` (`src/script/model/kernels/general.py`, lines 247-258):
flatten the batch into the row dimension, apply the softmax, restore the
batch structure. -/
def softmaxBatch (n : ℕ) (X : T3 ℝ) : T3 ℝ :=
  unflattenRows n (softmaxRows n (flattenRows n X))

/-- `GaussianSoftmax.forward` (`src/script/model/kernels/general.py`, lines
283-289): the Gaussian kernel whose `_apply_norm` is `_softmax`. -/
def gaussianSoftmaxForward (diag : Bool) (fm n : ℕ) (emb : T3 ℝ)
    (sigma : ℝ) : T3 ℝ :=
  softmaxBatch n (gaussianForward diag fm emb sigma)

/-- `get_summed_weights` (`src/script/model/kernels/general.py`, lines
54-64): column sums of a single (n, n) adjacency minus its diagonal,
normalized by `n - 1`. -/
def getSummedWeights (n : ℕ) (adj : ℕ → ℕ → ℝ) : ℕ → ℝ :=
  fun j => ((∑ k ∈ Finset.range n, adj k j) - adj j j) / ((n : ℝ) - 1)

/-- `DirectedGaussian.forward` (`src/script/model/kernels/general.py`,
lines 119-132), modelled exactly as written: the inner Gaussian kernel is
called as `self.gauss_ker(adj_in, emb_in)`, so the new `Gaussian.forward`
receives `adj_in` as its embedding argument (its feature axis has size
`n`), and the summed-weight term is built from `adj_in[0]` on every loop
iteration; `emb` is accepted (it supplies the sizes in the source) but its
values never enter the result. -/
def dgForward (n : ℕ) (theta sigma : ℝ) (adjIn emb : T3 ℝ) : T3 ℝ :=
  fun b i j =>
    theta * gaussianForward true n adjIn sigma b i j
      + (1 - theta) * getSummedWeights n (adjIn 0) i

/-- `Gaussian.forward` with its `save_adj` side effect
(`src/script/model/kernels/general.py`, line 280): the computed adjacency
is passed to `save_adj` before being returned. -/
def gaussForwardS (diag : Bool) (fm : ℕ) (sigma : ℝ) (s : KState ℝ)
    (emb : T3 ℝ) : T3 ℝ × KState ℝ :=
  let a := gaussianForward diag fm emb sigma
  (a, saveAdj s a)

/-- `sigmoid`. -/
def sigmoid (x : ℝ) : ℝ := 1 / (1 + Real.exp (-x))

/-- `torch.Tensor.std()` over all elements of a (B, F, N) tensor, unbiased
(divides by the element count minus 1), as used by `MPNNdirected.forward`
to normalize coordinates. -/
def allStd (B F N : ℕ) (emb : T3 ℝ) : ℝ :=
  Real.sqrt
    ((∑ b ∈ Finset.range B, ∑ f ∈ Finset.range F, ∑ i ∈ Finset.range N,
        (emb b f i
          - (∑ b' ∈ Finset.range B, ∑ f' ∈ Finset.range F,
              ∑ i' ∈ Finset.range N, emb b' f' i') / ((B * F * N : ℕ) : ℝ)) ^ 2)
      / (((B * F * N : ℕ) : ℝ) - 1))

/-- The adjacency computed by `MPNNdirected.forward`
(`src/script/model/kernels/general.py`, lines 144-168): after the column
loop, `adj[b, i, j] = sigmoid(v · (coord_i + coord_j) + bias)` where
`coord = emb / emb.std()`. -/
def mpnnAdj (B F N : ℕ) (v : ℕ → ℝ) (bb : ℝ) (emb : T3 ℝ) : T3 ℝ :=
  fun b i j =>
    sigmoid
      ((∑ f ∈ Finset.range F,
          v f * (emb b f i / allStd B F N emb + emb b f j / allStd B F N emb))
        + bb)

/-- `MPNNdirected.forward` with its (absent) side effect: unlike
`Gaussian.forward`, it never calls `save_adj`, so the kernel state is
returned unchanged.  `adjIn` is accepted and used only for the CUDA check
in the source. -/
def mpnnForwardS (B F N : ℕ) (v : ℕ → ℝ) (bb : ℝ) (s : KState ℝ)
    (adjIn emb : T3 ℝ) : T3 ℝ × KState ℝ :=
  (mpnnAdj B F N v bb emb, s)

/-- Per-graph per-feature mean over the node axis (`emb.mean(2)` in
`GraphNorm.forward`, `src/script/model/graphconv.py`, line 167). -/
def nodeMean (n : ℕ) (emb : T3 ℝ) : ℕ → ℕ → ℝ :=
  fun b f => (∑ i ∈ Finset.range n, emb b f i) / (n : ℝ)

/-- `emb_centered` of `GraphNorm.forward`. -/
def gnCentered (n : ℕ) (emb : T3 ℝ) : T3 ℝ :=
  fun b f i => emb b f i - nodeMean n emb b f

/-- `var = (emb_centered ** 2).mean(2)` of `GraphNorm.forward`. -/
def gnVar (n : ℕ) (emb : T3 ℝ) : ℕ → ℕ → ℝ :=
  fun b f => (∑ i ∈ Finset.range n, gnCentered n emb b f i ^ 2) / (n : ℝ)

/-- The divisor of `GraphNorm.forward`, line 172:
`(var + var_protect).sqrt() + epsilon` with `var_protect = (var == 0)`. -/
def gnDenom (n : ℕ) (eps : ℝ) (emb : T3 ℝ) : ℕ → ℕ → ℝ :=
  fun b f =>
    Real.sqrt (gnVar n emb b f + (if gnVar n emb b f = 0 then 1 else 0)) + eps

/-- `emb_norm` of `GraphNorm.forward`: the output before the learned
`alpha`/`beta` affine rescale. -/
def graphNormPre (n : ℕ) (eps : ℝ) (emb : T3 ℝ) : T3 ℝ :=
  fun b f i => gnCentered n emb b f i / gnDenom n eps emb b f

/-- `GraphNorm.forward` (`src/script/model/graphconv.py`, lines 166-177):
the normalized embedding rescaled by `alpha` and recentered by `beta`. -/
def graphNorm (n : ℕ) (eps : ℝ) (alpha beta : ℕ → ℝ) (emb : T3 ℝ) : T3 ℝ :=
  fun b f i => graphNormPre n eps emb b f i * alpha f + beta f

/-! #### Statistics accumulator (`src/Atlas_nyu/statistics.py`) -/

/-- The per-mode buffer of `Statistics`: the six tracked statistics, the
positive/negative label counters, and the batch counter
`nb_batch_in_buffer[mode]`. -/
structure SBuf where
  loss : ℝ
  kernel : ℝ
  avg0 : ℝ
  avg1 : ℝ
  std0 : ℝ
  std1 : ℝ
  nbOnes : ℝ
  nbZero : ℝ
  nbBatch : ℕ

/-- The two statistics modes. -/
inductive SMode where
  | train : SMode
  | test : SMode

/-- `self.stats`, the tracked statistic names, in source order. -/
def statsNames : List String :=
  ["loss", "kernel", "avg0", "avg1", "std0", "std1"]

/-- Look a tracked statistic up in a buffer by its name. -/
def statGet (bf : SBuf) (s : String) : ℝ :=
  if s = "loss" then bf.loss
  else if s = "kernel" then bf.kernel
  else if s = "avg0" then bf.avg0
  else if s = "avg1" then bf.avg1
  else if s = "std0" then bf.std0
  else bf.std1

/-- `Statistics._init_buffer` (`src/Atlas_nyu/statistics.py`, lines
122-127): all statistics, the label counters and the batch counter are
reset to zero. -/
def initBuffer : SBuf :=
  ⟨0, 0, 0, 0, 0, 0, 0, 0, 0⟩

/-- The `nb_ones > 0` branch of the normalization performed by
`Statistics._update_buffer` (`src/Atlas_nyu/statistics.py`, lines 81-86):
`avg1` is divided by the positive-label count and `std1` becomes the
square root of the population variance floored at zero. -/
def normOnes (bf : SBuf) : SBuf :=
  if 0 < bf.nbOnes then
    { bf with avg1 := bf.avg1 / bf.nbOnes,
              std1 := Real.sqrt
                (max 0 (bf.std1 / bf.nbOnes - (bf.avg1 / bf.nbOnes) ^ 2)) }
  else bf

/-- The `nb_zero > 0` branch of the normalization (lines 88-93). -/
def normZero (bf : SBuf) : SBuf :=
  if 0 < bf.nbZero then
    { bf with avg0 := bf.avg0 / bf.nbZero,
              std0 := Real.sqrt
                (max 0 (bf.std0 / bf.nbZero - (bf.avg0 / bf.nbZero) ^ 2)) }
  else bf

/-- The full normalization of `Statistics._update_buffer` (lines 78-93):
loss and kernel divided by the window size, then the two guarded
label-count normalizations in source order. -/
def normalizeBuf (nbdisplay : ℕ) (bf : SBuf) : SBuf :=
  normZero (normOnes
    { bf with loss := bf.loss / (nbdisplay : ℝ),
              kernel := bf.kernel / (nbdisplay : ℝ) })

/-- The observable outcome of one `Statistics._update_buffer` call: the
`(statistic, value)` pairs appended to the comma-separated files, the
statistic names included in the printed summary line (empty when nothing
is printed), and the resulting buffer. -/
structure SOut where
  writes : List (String × ℝ)
  printed : List String
  buf : SBuf

/-- `Statistics._update_buffer` (`src/Atlas_nyu/statistics.py`, lines
74-115): increment the batch counter; once it reaches `nbdisplay`,
normalize, then — only in `train` mode — append every tracked statistic to
its file; print the summary (in `test` mode the stats whose name contains
`loss` are omitted); finally reset the buffer via `_init_buffer`. -/
def updateBuffer (mode : SMode) (nbdisplay : ℕ) (bf : SBuf) : SOut :=
  let bf1 := { bf with nbBatch := bf.nbBatch + 1 }
  if nbdisplay ≤ bf1.nbBatch then
    let nb := normalizeBuf nbdisplay bf1
    match mode with
    | SMode.train =>
      ⟨statsNames.map fun s => (s, statGet nb s), statsNames, initBuffer⟩
    | SMode.test =>
      ⟨[], statsNames.filter fun s => s ≠ "loss", initBuffer⟩
  else ⟨[], [], bf1⟩

/-- `Statistics.update` (`src/Atlas_nyu/statistics.py`, lines 38-72), the
buffered accumulation over one batch of `m` outputs/labels followed by
`_update_buffer` (the train-only `loss_step` side channel is not part of
the claim and is omitted). -/
def statUpdate (mode : SMode) (nbdisplay m : ℕ) (output labels : ℕ → ℝ)
    (lossStep kernelStd : ℝ) (bf : SBuf) : SOut :=
  updateBuffer mode nbdisplay
    { bf with
        loss := bf.loss + lossStep,
        kernel := bf.kernel + kernelStd,
        nbOnes := bf.nbOnes + ∑ i ∈ Finset.range m, labels i,
        avg1 := bf.avg1 + ∑ i ∈ Finset.range m, output i * labels i,
        std1 := bf.std1 + ∑ i ∈ Finset.range m, (output i * labels i) ^ 2,
        nbZero := bf.nbZero + ∑ i ∈ Finset.range m, (1 - labels i),
        avg0 := bf.avg0 + ∑ i ∈ Finset.range m, output i * (1 - labels i),
        std0 := bf.std0 + ∑ i ∈ Finset.range m,
          (output i * (1 - labels i)) ^ 2 }

end RealWorld

section GenericThms

variable {K : Type} [LinearOrderedField K]

/-- C1: `GraphOpConv.forward` returns the learned affine transform (batched
weight multiply plus bias) applied to the concatenation of the identity
embedding, the masked per-graph mean broadcast to all nodes, and one
neighbor-aggregated block `bmm(emb_in, opChunk c)` per stacked operator;
when `ops` is `None` only the identity and average channels are
concatenated, and with `nb_op = 0` (identity kernel) the output is
`affine(concat(identity_embedding, masked_mean_embedding))`, checked also
against a hand-computed value on a single 4-node graph with fixed
weight 2 / bias 5. -/
theorem gocForward_is_affine_of_spec_concat :
    (∀ (in_fm nbop n : ℕ) (w : ℕ → ℕ → K) (bias : ℕ → K) (O emb : T3 K)
        (nbNodes : ℕ → ℕ),
      gocForward in_fm nbop n w bias (some O) emb nbNodes
        = affineApply (in_fm * (nbop + 2)) w bias
            (gocSpreadSpec in_fm n emb
              (fun b f _ => meanWithPadding emb nbNodes b f) O))
    ∧ (∀ (in_fm n : ℕ) (w : ℕ → ℕ → K) (bias : ℕ → K) (emb : T3 K)
        (nbNodes : ℕ → ℕ),
      gocForward in_fm 0 n w bias none emb nbNodes
        = affineApply (in_fm * 2) w bias
            (cat1 in_fm emb (fun b f _ => meanWithPadding emb nbNodes b f)))
    ∧ gocForward (K := ℚ) 1 0 4 (fun _ _ => 2) (fun _ => 5) none
        (fun _ _ i => (i : ℚ)) (fun _ => 4) 0 0 0 = 8 := by
  refine ⟨fun in_fm nbop n w bias O emb nbNodes => rfl,
    fun in_fm n w bias emb nbNodes => rfl, ?_⟩
  norm_num [gocForward, cat1, meanWithPadding, Finset.sum_range_succ]

/-- C4: constructing `ResGOpConv` with an odd `out_fm` raises a
`ValueError` at construction time, in both variants; with an even `out_fm`
construction succeeds with half-size sub-convolutions, the two halves add
up to exactly `out_fm` feature maps, and the forward output is the
concatenation of the linear half with the ReLU-activated half. -/
theorem resGOpConv_init_parity_and_output :
    ∀ out_fm : ℕ,
      (out_fm % 2 = 1 →
        resGOpConvInit out_fm
          = Except.error
              ("ResGOpConv requires event number of output feature maps : "
                ++ toString out_fm)
        ∧ resGOpConvInitGnn out_fm
          = Except.error
              ("ResGOpConv requires even # of output feature maps: "
                ++ toString out_fm))
      ∧ (out_fm % 2 = 0 →
        resGOpConvInit out_fm = Except.ok (out_fm / 2)
        ∧ resGOpConvInitGnn out_fm = Except.ok (out_fm / 2)
        ∧ out_fm / 2 + out_fm / 2 = out_fm
        ∧ ∀ (in_fm nbop n : ℕ) (wl : ℕ → ℕ → K) (bl : ℕ → K)
            (wn : ℕ → ℕ → K) (bn : ℕ → K) (ops : Option (T3 K)) (emb : T3 K)
            (nbNodes : ℕ → ℕ) (b f j : ℕ),
          (f < out_fm / 2 →
            resGOpConvForward in_fm (out_fm / 2) nbop n wl bl wn bn ops emb
                nbNodes b f j
              = gocForward in_fm nbop n wl bl ops emb nbNodes b f j)
          ∧ (out_fm / 2 ≤ f →
            resGOpConvForward in_fm (out_fm / 2) nbop n wl bl wn bn ops emb
                nbNodes b f j
              = relu (gocForward in_fm nbop n wn bn ops emb nbNodes b
                  (f - out_fm / 2) j))) := by
  intro out_fm
  constructor
  · intro h
    constructor <;> simp [resGOpConvInit, resGOpConvInitGnn, h]
  · intro h
    refine ⟨by simp [resGOpConvInit, h], by simp [resGOpConvInitGnn, h],
      by omega, ?_⟩
    intro in_fm nbop n wl bl wn bn ops emb nbNodes b f j
    constructor
    · intro hf
      simp [resGOpConvForward, cat1, hf]
    · intro hf
      simp [resGOpConvForward, cat1, Nat.not_lt.mpr hf]

/-- Witness for C4 at `out_fm = 3` (odd: construction fails) and
`out_fm = 4` (even: construction succeeds with two halves of 2). -/
theorem resGOpConv_init_parity_witness :
    (3 % 2 = 1
      ∧ resGOpConvInit 3
        = Except.error
            ("ResGOpConv requires event number of output feature maps : "
              ++ toString 3))
    ∧ (4 % 2 = 0 ∧ resGOpConvInit 4 = Except.ok (4 / 2)
        ∧ 4 / 2 + 4 / 2 = 4) :=
  ⟨⟨by decide, ((resGOpConv_init_parity_and_output (K := ℚ) 3).1
      (by decide)).1⟩,
   by decide,
   ((resGOpConv_init_parity_and_output (K := ℚ) 4).2 (by decide)).1,
   (((resGOpConv_init_parity_and_output (K := ℚ) 4).2 (by decide)).2).2.1⟩

/-- C9: in the gnn-variant `GraphOpConv`, the masked-average channel is
never computed: for non-`None` `ops` the output is independent of the
`batch_nb_nodes` and `adj_mask` arguments and equals the affine transform
of the identity channel and the per-operator spread channels only; calling
`forward` with `ops = None` fails with an unbound-variable (`NameError`)
error on `avg`. -/
theorem gnnGocForward_avg_dead_code :
    (∀ (n fmap nbop : ℕ) (w : ℕ → ℕ → K) (bias : ℕ → K) (emb : T3 K)
        (nb : ℕ → ℕ) (mask : T3 K),
      gnnGocForward n fmap nbop w bias none emb nb mask
        = Except.error "NameError: name avg is not defined")
    ∧ (∀ (n fmap nbop : ℕ) (w : ℕ → ℕ → K) (bias : ℕ → K) (O emb : T3 K)
        (nb₁ nb₂ : ℕ → ℕ) (mask₁ mask₂ : T3 K),
      gnnGocForward n fmap nbop w bias (some O) emb nb₁ mask₁
        = gnnGocForward n fmap nbop w bias (some O) emb nb₂ mask₂)
    ∧ (∀ (n fmap nbop : ℕ) (w : ℕ → ℕ → K) (bias : ℕ → K) (O emb : T3 K)
        (nb : ℕ → ℕ) (mask : T3 K),
      gnnGocForward n fmap nbop w bias (some O) emb nb mask
        = Except.ok (fun b i o =>
            (∑ g ∈ Finset.range (fmap * (nbop + 1)),
              w o g * gnnSpreadSpec n fmap emb O b i g) + bias o)) :=
  ⟨fun _ _ _ _ _ _ _ _ => rfl, fun _ _ _ _ _ _ _ _ _ _ _ => rfl,
   fun _ _ _ _ _ _ _ _ _ => rfl⟩

end GenericThms

section NanThms

variable {K : Type} [LinearOrderedField K] [DecidableEq K]

lemma oadd_isSome {a b : Option K} (ha : a.isSome) (hb : b.isSome) :
    (oadd a b).isSome := by
  cases a <;> cases b <;> simp_all [oadd]

lemma omul_isSome {a b : Option K} (ha : a.isSome) (hb : b.isSome) :
    (omul a b).isSome := by
  cases a <;> cases b <;> simp_all [omul]

lemma odiv_isSome {a : Option K} {y : K} (ha : a.isSome) (hy : y ≠ 0) :
    (odiv a (some y)).isSome := by
  cases a <;> simp_all [odiv]

lemma orelu_isSome {a : Option K} (ha : a.isSome) : (orelu a).isSome := by
  cases a <;> simp_all [orelu]

lemma osum_isSome {m : ℕ} {f : ℕ → Option K}
    (h : ∀ i < m, (f i).isSome) : (osum m f).isSome := by
  induction m with
  | zero => simp [osum]
  | succ m ih =>
    exact oadd_isSome (h m (by omega)) (ih fun i hi => h i (by omega))

lemma hasNaN_eq_false_of {B F N : ℕ} {X : T3O K}
    (h : ∀ b < B, ∀ f < F, ∀ j < N, (X b f j).isSome) :
    hasNaN B F N X = false := by
  rw [Bool.eq_false_iff]
  intro hc
  simp only [hasNaN, List.any_eq_true, List.mem_range] at hc
  obtain ⟨b, hb, f, hf, j, hj, hnone⟩ := hc
  have hs := h b hb f hf j hj
  rw [Option.isNone_iff_eq_none] at hnone
  rw [hnone] at hs
  simp at hs

lemma ogocForward_isSome (half : ℕ) {B in_fm nbop n : ℕ} {w : ℕ → ℕ → Option K}
    {bias : ℕ → Option K} {O emb : T3O K} {nbNodes : ℕ → ℕ}
    (hin : 0 < in_fm)
    (hemb : ∀ b < B, ∀ f < in_fm, ∀ j < n, (emb b f j).isSome)
    (hops : ∀ b < B, ∀ k < n, ∀ q < n * nbop, (O b k q).isSome)
    (hw : ∀ o < half, ∀ k < in_fm * (nbop + 2), (w o k).isSome)
    (hbias : ∀ o < half, (bias o).isSome)
    (hnb : ∀ b < B, 0 < nbNodes b ∧ nbNodes b ≤ n) :
    ∀ b < B, ∀ o < half, ∀ j < n,
      (ogocForward in_fm nbop n w bias (some O) emb nbNodes b o j).isSome := by
  intro b hb o ho j hj
  refine oadd_isSome (osum_isSome fun k hk => ?_) (hbias o ho)
  refine omul_isSome (hw o ho k hk) ?_
  have hexp : in_fm * (nbop + 2) = nbop * in_fm + 2 * in_fm := by ring
  show (ogocSpread in_fm n emb _ (obmm n emb O) b k j).isSome
  unfold ogocSpread
  by_cases h1 : k < in_fm
  · simpa [h1] using hemb b hb k h1 j hj
  · by_cases h2 : k < 2 * in_fm
    · simp only [h1, h2, if_true, if_false]
      refine odiv_isSome (osum_isSome fun i hi => ?_) ?_
      · exact hemb b hb (k - in_fm) (by omega) i
          (lt_of_lt_of_le hi (hnb b hb).2)
      · exact (Nat.cast_pos.mpr (hnb b hb).1).ne'
    · simp only [h1, h2, if_false]
      refine osum_isSome fun kk hkk => ?_
      refine omul_isSome
        (hemb b hb ((k - 2 * in_fm) % in_fm) (Nat.mod_lt _ hin) kk hkk) ?_
      have hc : (k - 2 * in_fm) / in_fm < nbop := by
        rw [Nat.div_lt_iff_lt_mul hin]
        omega
      have hstep : ((k - 2 * in_fm) / in_fm + 1) * n ≤ nbop * n :=
        Nat.mul_le_mul_right n (Nat.succ_le_of_lt hc)
      rw [Nat.succ_mul] at hstep
      refine hops b hb kk hkk _ ?_
      rw [Nat.mul_comm n nbop]
      omega

lemma ogocForward_none_isSome (half : ℕ) {B in_fm n : ℕ} {w : ℕ → ℕ → Option K}
    {bias : ℕ → Option K} {emb : T3O K} {nbNodes : ℕ → ℕ}
    (hemb : ∀ b < B, ∀ f < in_fm, ∀ j < n, (emb b f j).isSome)
    (hw : ∀ o < half, ∀ k < in_fm * 2, (w o k).isSome)
    (hbias : ∀ o < half, (bias o).isSome)
    (hnb : ∀ b < B, 0 < nbNodes b ∧ nbNodes b ≤ n) :
    ∀ b < B, ∀ o < half, ∀ j < n,
      (ogocForward in_fm 0 n w bias none emb nbNodes b o j).isSome := by
  intro b hb o ho j hj
  refine oadd_isSome (osum_isSome fun k hk => ?_) (hbias o ho)
  have hk' : k < in_fm * 2 := by omega
  refine omul_isSome (hw o ho k hk') ?_
  show (ocat1 in_fm emb _ b k j).isSome
  unfold ocat1
  by_cases h1 : k < in_fm
  · simpa [h1] using hemb b hb k h1 j hj
  · simp only [h1, if_false]
    refine odiv_isSome (osum_isSome fun i hi => ?_) ?_
    · exact hemb b hb (k - in_fm) (by omega) i
        (lt_of_lt_of_le hi (hnb b hb).2)
    · exact (Nat.cast_pos.mpr (hnb b hb).1).ne'

/-- C5: `ResGOpConv.forward` aborts via the NaN checks whenever the linear
branch, the nonlinear branch, or the concatenated output contains a NaN
(first three conjuncts, with the source's three messages); and when the
inputs, operators and parameters are NaN-free (and every graph has at least
one valid, in-range node), the assertion branch is unreachable: forward
returns the concatenated output and it contains no NaNs (last two
conjuncts, for stacked operators and for `ops = None` with `nb_op = 0`). -/
theorem oresForward_nan_check_semantics :
    (∀ (B in_fm half nbop n : ℕ) (wl : ℕ → ℕ → Option K) (bl : ℕ → Option K)
        (wn : ℕ → ℕ → Option K) (bn : ℕ → Option K) (ops : Option (T3O K))
        (emb : T3O K) (nbNodes : ℕ → ℕ),
      (hasNaN B half n (ogocForward in_fm nbop n wl bl ops emb nbNodes)
          = true →
        oresForward B in_fm half nbop n wl bl wn bn ops emb nbNodes
          = Except.error "NAN in resgconv : linear")
      ∧ (hasNaN B half n (ogocForward in_fm nbop n wl bl ops emb nbNodes)
            = false →
         hasNaN B half n (ogocForward in_fm nbop n wn bn ops emb nbNodes)
            = true →
        oresForward B in_fm half nbop n wl bl wn bn ops emb nbNodes
          = Except.error "NAN in resgconv : nlinear")
      ∧ (hasNaN B half n (ogocForward in_fm nbop n wl bl ops emb nbNodes)
            = false →
         hasNaN B half n (ogocForward in_fm nbop n wn bn ops emb nbNodes)
            = false →
         hasNaN B (half + half) n
            (ocat1 half (ogocForward in_fm nbop n wl bl ops emb nbNodes)
              fun b f j =>
                orelu (ogocForward in_fm nbop n wn bn ops emb nbNodes b f j))
            = true →
        oresForward B in_fm half nbop n wl bl wn bn ops emb nbNodes
          = Except.error "NAN in first gconv : before return"))
    ∧ (∀ (B in_fm half nbop n : ℕ) (wl : ℕ → ℕ → Option K)
        (bl : ℕ → Option K) (wn : ℕ → ℕ → Option K) (bn : ℕ → Option K)
        (O emb : T3O K) (nbNodes : ℕ → ℕ),
      0 < in_fm →
      (∀ b < B, ∀ f < in_fm, ∀ j < n, (emb b f j).isSome) →
      (∀ b < B, ∀ k < n, ∀ q < n * nbop, (O b k q).isSome) →
      (∀ o < half, ∀ k < in_fm * (nbop + 2), (wl o k).isSome) →
      (∀ o < half, (bl o).isSome) →
      (∀ o < half, ∀ k < in_fm * (nbop + 2), (wn o k).isSome) →
      (∀ o < half, (bn o).isSome) →
      (∀ b < B, 0 < nbNodes b ∧ nbNodes b ≤ n) →
      oresForward B in_fm half nbop n wl bl wn bn (some O) emb nbNodes
          = Except.ok
              (ocat1 half (ogocForward in_fm nbop n wl bl (some O) emb nbNodes)
                fun b f j =>
                  orelu
                    (ogocForward in_fm nbop n wn bn (some O) emb nbNodes b f j))
        ∧ ∀ b < B, ∀ f < half + half, ∀ j < n,
            ((ocat1 half (ogocForward in_fm nbop n wl bl (some O) emb nbNodes)
              fun b f j =>
                orelu
                  (ogocForward in_fm nbop n wn bn (some O) emb nbNodes b f j))
              b f j).isSome)
    ∧ (∀ (B in_fm half n : ℕ) (wl : ℕ → ℕ → Option K) (bl : ℕ → Option K)
        (wn : ℕ → ℕ → Option K) (bn : ℕ → Option K) (emb : T3O K)
        (nbNodes : ℕ → ℕ),
      (∀ b < B, ∀ f < in_fm, ∀ j < n, (emb b f j).isSome) →
      (∀ o < half, ∀ k < in_fm * 2, (wl o k).isSome) →
      (∀ o < half, (bl o).isSome) →
      (∀ o < half, ∀ k < in_fm * 2, (wn o k).isSome) →
      (∀ o < half, (bn o).isSome) →
      (∀ b < B, 0 < nbNodes b ∧ nbNodes b ≤ n) →
      oresForward B in_fm half 0 n wl bl wn bn none emb nbNodes
          = Except.ok
              (ocat1 half (ogocForward in_fm 0 n wl bl none emb nbNodes)
                fun b f j =>
                  orelu (ogocForward in_fm 0 n wn bn none emb nbNodes b f j))) := by
  refine ⟨fun B in_fm half nbop n wl bl wn bn ops emb nbNodes =>
    ⟨fun h1 => by simp [oresForward, h1],
     fun h1 h2 => by simp [oresForward, h1, h2],
     fun h1 h2 h3 => by simp [oresForward, h1, h2, h3]⟩, ?_, ?_⟩
  · intro B in_fm half nbop n wl bl wn bn O emb nbNodes hin hemb hops hwl hbl
      hwn hbn hnb
    have hlin := ogocForward_isSome half hin hemb hops hwl hbl hnb
    have hnlin := ogocForward_isSome half hin hemb hops hwn hbn hnb
    have hout : ∀ b < B, ∀ f < half + half, ∀ j < n,
        ((ocat1 half (ogocForward in_fm nbop n wl bl (some O) emb nbNodes)
          fun b f j =>
            orelu (ogocForward in_fm nbop n wn bn (some O) emb nbNodes b f j))
          b f j).isSome := by
      intro b hb f hf j hj
      unfold ocat1
      by_cases h : f < half
      · simpa [h] using hlin b hb f h j hj
      · simp only [h, if_false]
        exact orelu_isSome (hnlin b hb (f - half) (by omega) j hj)
    have h1 := hasNaN_eq_false_of hlin
    have h2 := hasNaN_eq_false_of hnlin
    have h3 := hasNaN_eq_false_of hout
    exact ⟨by simp [oresForward, h1, h2, h3], hout⟩
  · intro B in_fm half n wl bl wn bn emb nbNodes hemb hwl hbl hwn hbn hnb
    by_cases hin : 0 < in_fm
    · have hwl' : ∀ o < half, ∀ k < in_fm * (0 + 2), (wl o k).isSome := by
        intro o ho k hk; exact hwl o ho k (by omega)
      have hwn' : ∀ o < half, ∀ k < in_fm * (0 + 2), (wn o k).isSome := by
        intro o ho k hk; exact hwn o ho k (by omega)
      have hlin := ogocForward_none_isSome half hemb
        (by intro o ho k hk; exact hwl o ho k hk) hbl hnb
      have hnlin := ogocForward_none_isSome half hemb
        (by intro o ho k hk; exact hwn o ho k hk) hbn hnb
      have hout : ∀ b < B, ∀ f < half + half, ∀ j < n,
          ((ocat1 half (ogocForward in_fm 0 n wl bl none emb nbNodes)
            fun b f j =>
              orelu (ogocForward in_fm 0 n wn bn none emb nbNodes b f j))
            b f j).isSome := by
        intro b hb f hf j hj
        unfold ocat1
        by_cases h : f < half
        · simpa [h] using hlin b hb f h j hj
        · simp only [h, if_false]
          exact orelu_isSome (hnlin b hb (f - half) (by omega) j hj)
      simp [oresForward, hasNaN_eq_false_of hlin, hasNaN_eq_false_of hnlin,
        hasNaN_eq_false_of hout]
    · have hin0 : in_fm = 0 := by omega
      subst hin0
      have hlin := ogocForward_none_isSome half
        (show ∀ b < B, ∀ f < 0, ∀ j < n, (emb b f j).isSome from
          fun b hb f hf => by omega)
        (show ∀ o < half, ∀ k < 0 * 2, (wl o k).isSome from
          fun o ho k hk => by omega) hbl hnb
      have hnlin := ogocForward_none_isSome half
        (show ∀ b < B, ∀ f < 0, ∀ j < n, (emb b f j).isSome from
          fun b hb f hf => by omega)
        (show ∀ o < half, ∀ k < 0 * 2, (wn o k).isSome from
          fun o ho k hk => by omega) hbn hnb
      have hout : ∀ b < B, ∀ f < half + half, ∀ j < n,
          ((ocat1 half (ogocForward 0 0 n wl bl none emb nbNodes)
            fun b f j =>
              orelu (ogocForward 0 0 n wn bn none emb nbNodes b f j))
            b f j).isSome := by
        intro b hb f hf j hj
        unfold ocat1
        by_cases h : f < half
        · simpa [h] using hlin b hb f h j hj
        · simp only [h, if_false]
          exact orelu_isSome (hnlin b hb (f - half) (by omega) j hj)
      simp [oresForward, hasNaN_eq_false_of hlin, hasNaN_eq_false_of hnlin,
        hasNaN_eq_false_of hout]

/-- Witness for C5: a concrete NaN-free batch (one graph, one node, one
feature map, one stacked operator tensor with `nb_op = 0`) on which the
assertion branch is unreachable and forward returns the concatenation. -/
theorem oresForward_nan_check_witness :
    (0 : ℕ) < 1
    ∧ (∀ b < 1, ∀ f < 1, ∀ j < 1,
        ((fun _ _ _ => some (2 : ℚ)) b f j : Option ℚ).isSome)
    ∧ oresForward 1 1 1 0 1 (fun _ _ => some (3 : ℚ)) (fun _ => some 4)
        (fun _ _ => some 5) (fun _ => some 6) (some fun _ _ _ => some 1)
        (fun _ _ _ => some 2) (fun _ => 1)
        = Except.ok
            (ocat1 1
              (ogocForward 1 0 1 (fun _ _ => some (3 : ℚ)) (fun _ => some 4)
                (some fun _ _ _ => some 1) (fun _ _ _ => some 2) (fun _ => 1))
              fun b f j =>
                orelu
                  (ogocForward 1 0 1 (fun _ _ => some (5 : ℚ))
                    (fun _ => some 6) (some fun _ _ _ => some 1)
                    (fun _ _ _ => some 2) (fun _ => 1) b f j)) :=
  ⟨by decide, by decide,
   (oresForward_nan_check_semantics.2.1 1 1 1 0 1 _ _ _ _ _ _ _ (by decide)
      (by decide) (by decide) (by decide) (by decide) (by decide) (by decide)
      (by decide)).1⟩

end NanThms

section RealThms

/-- C2: the Gaussian kernel's forward returns `exp(-sqdist * sigma^2)`
entrywise (stated exactly for `diag=True`; `diag=False` only zeroes the
diagonal), every entry of the returned adjacency lies in `[0, 1]`, and
with `diag=False` every diagonal entry of every graph in the batch is
exactly 0. -/
theorem gaussianForward_entries_in_unit_interval :
    ∀ (diag : Bool) (fm : ℕ) (emb : T3 ℝ) (sigma : ℝ) (b i j : ℕ),
      gaussianForward true fm emb sigma b i j
          = Real.exp (-sqdist fm emb b i j * sigma ^ 2)
      ∧ 0 ≤ gaussianForward diag fm emb sigma b i j
      ∧ gaussianForward diag fm emb sigma b i j ≤ 1
      ∧ gaussianForward false fm emb sigma b i i = 0 := by
  intro diag fm emb sigma b i j
  have hsq : ∀ i' j' : ℕ, 0 ≤ sqdist fm emb b i' j' := fun i' j' =>
    Finset.sum_nonneg fun f _ => sq_nonneg _
  have hle : ∀ i' j' : ℕ,
      Real.exp (-sqdist fm emb b i' j' * sigma ^ 2) ≤ 1 := by
    intro i' j'
    rw [Real.exp_le_one_iff]
    have := mul_nonneg (hsq i' j') (sq_nonneg sigma)
    linarith
  refine ⟨rfl, ?_, ?_, ?_⟩
  · cases diag
    · show deleteDiag (gaussian (sqdist fm emb) sigma) b i j ≥ 0
      unfold deleteDiag gaussian
      by_cases h : i = j
      · simp [h]
      · simp [h, (Real.exp_pos _).le]
    · exact (Real.exp_pos _).le
  · cases diag
    · show deleteDiag (gaussian (sqdist fm emb) sigma) b i j ≤ 1
      unfold deleteDiag gaussian
      by_cases h : i = j
      · simp [h]
      · simpa [h] using hle i j
    · exact hle i j
  · show deleteDiag (gaussian (sqdist fm emb) sigma) b i i = 0
    simp [deleteDiag]

/-- C3: every row of every graph's adjacency returned by
`GaussianSoftmax.forward` sums exactly to 1 (the floating tolerance of the
claim is exact equality in real arithmetic), and the flatten/softmax/
restore pipeline indeed applies a plain row softmax of the Gaussian
adjacency to each in-range row of each graph. -/
theorem gaussianSoftmaxForward_row_sums_one :
    ∀ (diag : Bool) (fm n : ℕ) (emb : T3 ℝ) (sigma : ℝ) (b i : ℕ),
      0 < n →
      (∑ j ∈ Finset.range n,
          gaussianSoftmaxForward diag fm n emb sigma b i j) = 1
      ∧ (i < n → ∀ j : ℕ,
          gaussianSoftmaxForward diag fm n emb sigma b i j
            = Real.exp (gaussianForward diag fm emb sigma b i j)
              / ∑ k ∈ Finset.range n,
                  Real.exp (gaussianForward diag fm emb sigma b i k)) := by
  intro diag fm n emb sigma b i hn
  constructor
  · unfold gaussianSoftmaxForward softmaxBatch unflattenRows softmaxRows
    rw [← Finset.sum_div]
    apply div_self
    have hpos : 0 < ∑ k ∈ Finset.range n,
        Real.exp (flattenRows n (gaussianForward diag fm emb sigma)
          (b * n + i) k) :=
      Finset.sum_pos (fun k _ => Real.exp_pos _)
        (Finset.nonempty_range_iff.mpr (by omega))
    exact hpos.ne'
  · intro hi j
    have hD : (b * n + i) / n = b := by
      rw [Nat.mul_comm b n, Nat.mul_add_div hn, Nat.div_eq_of_lt hi,
        Nat.add_zero]
    have hM : (b * n + i) % n = i := by
      rw [Nat.mul_comm b n, Nat.mul_add_mod, Nat.mod_eq_of_lt hi]
    unfold gaussianSoftmaxForward softmaxBatch unflattenRows softmaxRows
      flattenRows
    rw [hD, hM]

/-- Witness for C3: a concrete one-node batch whose softmax row sums
to 1. -/
theorem gaussianSoftmaxForward_row_sums_one_witness :
    (0 : ℕ) < 1
    ∧ (∑ j ∈ Finset.range 1,
        gaussianSoftmaxForward true 1 1 (fun _ _ _ => 0) 1 0 0 j) = 1 :=
  ⟨by decide,
   (gaussianSoftmaxForward_row_sums_one true 1 1 (fun _ _ _ => 0) 1 0 0
      (by decide)).1⟩

/-- C6: before the `alpha`/`beta` affine rescale, `GraphNorm` output has
per-graph per-feature mean exactly 0; the guarded divisor is strictly
positive (so the output contains no NaN/Inf); the output variance equals
`var / (sqrt var + eps)^2`, which is at most 1 and exactly 1 for `eps = 0`
whenever the input variance is nonzero; and for a feature with exactly
zero variance the guard substitutes 1 for the variance and every in-range
output entry is 0. -/
theorem graphNorm_pre_mean_zero_var_one :
    ∀ (n : ℕ) (eps : ℝ) (emb : T3 ℝ) (b f : ℕ),
      0 < n → 0 ≤ eps →
      nodeMean n (graphNormPre n eps emb) b f = 0
      ∧ 0 < gnDenom n eps emb b f
      ∧ gnVar n (graphNormPre n eps emb) b f
          = gnVar n emb b f / gnDenom n eps emb b f ^ 2
      ∧ (gnVar n emb b f ≠ 0 →
          gnDenom n eps emb b f = Real.sqrt (gnVar n emb b f) + eps
          ∧ gnVar n (graphNormPre n eps emb) b f ≤ 1
          ∧ (eps = 0 → gnVar n (graphNormPre n eps emb) b f = 1))
      ∧ (gnVar n emb b f = 0 → ∀ i < n, graphNormPre n eps emb b f i = 0) := by
  intro n eps emb b f hn heps
  have hnR : (0 : ℝ) < (n : ℝ) := Nat.cast_pos.mpr hn
  have hsum : ∑ i ∈ Finset.range n, gnCentered n emb b f i = 0 := by
    unfold gnCentered nodeMean
    rw [Finset.sum_sub_distrib, Finset.sum_const, Finset.card_range,
      nsmul_eq_mul]
    field_simp
  have hvnn : 0 ≤ gnVar n emb b f :=
    div_nonneg (Finset.sum_nonneg fun i _ => sq_nonneg _) hnR.le
  have hdpos : 0 < gnDenom n eps emb b f := by
    unfold gnDenom
    by_cases hv : gnVar n emb b f = 0
    · rw [hv]
      simp only [eq_self_iff_true, if_true, zero_add, Real.sqrt_one]
      linarith
    · rw [if_neg hv, add_zero]
      have := Real.sqrt_pos.mpr (lt_of_le_of_ne hvnn (Ne.symm hv))
      linarith
  have hmean : nodeMean n (graphNormPre n eps emb) b f = 0 := by
    unfold nodeMean graphNormPre
    rw [← Finset.sum_div, hsum, zero_div, zero_div]
  have hcpre : ∀ i, gnCentered n (graphNormPre n eps emb) b f i
      = graphNormPre n eps emb b f i := by
    intro i
    unfold gnCentered
    rw [hmean, sub_zero]
  have hvar : gnVar n (graphNormPre n eps emb) b f
      = gnVar n emb b f / gnDenom n eps emb b f ^ 2 := by
    show (∑ i ∈ Finset.range n,
        gnCentered n (graphNormPre n eps emb) b f i ^ 2) / (n : ℝ) = _
    have h1 : ∀ i, gnCentered n (graphNormPre n eps emb) b f i ^ 2
        = gnCentered n emb b f i ^ 2 / gnDenom n eps emb b f ^ 2 := by
      intro i
      rw [hcpre i]
      unfold graphNormPre
      rw [div_pow]
    rw [Finset.sum_congr rfl fun i _ => h1 i, ← Finset.sum_div,
      div_right_comm]
    rfl
  refine ⟨hmean, hdpos, hvar, ?_, ?_⟩
  · intro hv
    have hvpos : 0 < gnVar n emb b f := lt_of_le_of_ne hvnn (Ne.symm hv)
    have hd : gnDenom n eps emb b f = Real.sqrt (gnVar n emb b f) + eps := by
      unfold gnDenom
      rw [if_neg hv, add_zero]
    have hsnn : 0 ≤ Real.sqrt (gnVar n emb b f) := Real.sqrt_nonneg _
    have hsq : Real.sqrt (gnVar n emb b f) ^ 2 = gnVar n emb b f :=
      Real.sq_sqrt hvnn
    refine ⟨hd, ?_, ?_⟩
    · rw [hvar, hd, div_le_one (by positivity)]
      nlinarith
    · intro he
      rw [hvar, hd, he, add_zero, hsq, div_self hv]
  · intro hv i hi
    have hS : ∑ i ∈ Finset.range n, gnCentered n emb b f i ^ 2 = 0 := by
      unfold gnVar at hv
      exact (div_eq_zero_iff.mp hv).resolve_right hnR.ne'
    have hci : gnCentered n emb b f i = 0 := by
      have h0 := (Finset.sum_eq_zero_iff_of_nonneg
        (fun j _ => sq_nonneg (gnCentered n emb b f j))).mp hS i
        (Finset.mem_range.mpr hi)
      exact pow_eq_zero_iff (two_ne_zero) |>.mp h0
    unfold graphNormPre
    rw [hci, zero_div]

/-- Witness for C6 at a concrete constant (zero-variance) one-node input
with `eps = 0`: the pre-rescale mean is 0. -/
theorem graphNorm_pre_mean_zero_witness :
    (0 : ℕ) < 1 ∧ (0 : ℝ) ≤ 0
    ∧ nodeMean 1 (graphNormPre 1 0 (fun _ _ _ => 5)) 0 0 = 0 :=
  ⟨by decide, le_refl 0,
   (graphNorm_pre_mean_zero_var_one 1 0 (fun _ _ _ => 5) 0 0 (by decide)
      (le_refl 0)).1⟩

/-- C7 (code bug, evaluated at the failing input): on a batch of two
graphs whose previous adjacencies differ (graph 0 all-zero, graph 1
all-one), `DirectedGaussian.forward` returns the same tensor for two
different node embeddings — the embeddings never enter the result, the
Gaussian being applied to the previous adjacency instead — and the
summed-incoming-weight term it uses everywhere is graph 0's (value 0),
which differs from graph 1's own (value 1). -/
theorem dgForward_ignores_embeddings_and_uses_graph0 :
    dgForward 2 (67 / 100) 1 (fun g _ _ => if g = 0 then (0 : ℝ) else 1)
        (fun _ _ _ => (0 : ℝ))
      = dgForward 2 (67 / 100) 1 (fun g _ _ => if g = 0 then (0 : ℝ) else 1)
        (fun _ _ _ => (1 : ℝ))
    ∧ ((fun _ _ _ => (0 : ℝ)) 0 0 0 : ℝ) ≠ (fun _ _ _ => (1 : ℝ)) 0 0 0
    ∧ getSummedWeights 2 ((fun g _ _ => if g = 0 then (0 : ℝ) else 1) 0) 0 = 0
    ∧ getSummedWeights 2 ((fun g _ _ => if g = 0 then (0 : ℝ) else 1) 1) 0
        = 1 := by
  refine ⟨rfl, by norm_num, ?_, ?_⟩
  · unfold getSummedWeights
    norm_num [Finset.sum_range_succ]
  · unfold getSummedWeights
    norm_num [Finset.sum_range_succ]

/-- Counterexample to C8 as stated: with `layerwise=False` and an empty
cache, a `MPNNdirected.forward` call does not cache the adjacency it
returns (its body never calls `save_adj`), so the state's cache afterwards
is not the returned adjacency. -/
theorem mpnnForwardS_does_not_cache :
    ((mpnnForwardS 1 1 1 (fun _ => 1) 0 ⟨false, none⟩ (fun _ _ _ => 0)
        (fun _ _ _ => 0)).2).cache
      ≠ some ((mpnnForwardS 1 1 1 (fun _ => 1) 0 ⟨false, none⟩
        (fun _ _ _ => 0) (fun _ _ _ => 0)).1) := by
  simp [mpnnForwardS]

/-- C8 as amended: with `layerwise=True`, `save_adj` is a no-op and
`update` is exactly `forward` (stateless, shown for the Gaussian kernel);
with `layerwise=False`, kernels whose `forward` calls `save_adj` (the
Gaussian family) cache the adjacency they return and a subsequent `update`
returns that cached adjacency without recomputation; `MPNNdirected`'s
`forward`, however, never calls `save_adj` and leaves the kernel state
unchanged. -/
theorem adjKernel_layerwise_and_caching :
    (∀ (s : KState ℝ) (diag : Bool) (fm : ℕ) (sigma : ℝ) (emb a : T3 ℝ),
      s.layerwise = true →
      saveAdj s a = s
      ∧ kernelUpdate (gaussForwardS diag fm sigma) s emb
          = (some (gaussianForward diag fm emb sigma), s))
    ∧ (∀ (s : KState ℝ) (diag : Bool) (fm : ℕ) (sigma : ℝ) (emb emb' : T3 ℝ),
      s.layerwise = false →
      ((gaussForwardS diag fm sigma s emb).2).cache
          = some (gaussianForward diag fm emb sigma)
      ∧ kernelUpdate (gaussForwardS diag fm sigma)
          ((gaussForwardS diag fm sigma s emb).2) emb'
          = (some (gaussianForward diag fm emb sigma),
             (gaussForwardS diag fm sigma s emb).2))
    ∧ (∀ (B F N : ℕ) (v : ℕ → ℝ) (bb : ℝ) (s : KState ℝ) (adjIn emb : T3 ℝ),
      (mpnnForwardS B F N v bb s adjIn emb).2 = s) := by
  refine ⟨?_, ?_, fun B F N v bb s adjIn emb => rfl⟩
  · intro s diag fm sigma emb a h
    constructor
    · simp [saveAdj, h]
    · simp [kernelUpdate, gaussForwardS, saveAdj, h]
  · intro s diag fm sigma emb emb' h
    have hcache : ((gaussForwardS diag fm sigma s emb).2).cache
        = some (gaussianForward diag fm emb sigma) := by
      simp [gaussForwardS, saveAdj, h]
    have hlw : ((gaussForwardS diag fm sigma s emb).2).layerwise = false := by
      simp [gaussForwardS, saveAdj, h]
    refine ⟨hcache, ?_⟩
    simp [kernelUpdate, hlw, hcache]

/-- Witness for C8: a concrete stateless (`layerwise=True`) state on which
`update` degenerates to `forward`, and a concrete caching
(`layerwise=False`) state whose cache holds the adjacency `forward` just
returned. -/
theorem adjKernel_layerwise_and_caching_witness :
    ((⟨true, none⟩ : KState ℝ).layerwise = true
      ∧ kernelUpdate (gaussForwardS true 1 1) (⟨true, none⟩ : KState ℝ)
          (fun _ _ _ => 0)
          = (some (gaussianForward true 1 (fun _ _ _ => 0) 1),
             (⟨true, none⟩ : KState ℝ)))
    ∧ ((⟨false, none⟩ : KState ℝ).layerwise = false
      ∧ ((gaussForwardS true 1 1 (⟨false, none⟩ : KState ℝ)
            (fun _ _ _ => 0)).2).cache
          = some (gaussianForward true 1 (fun _ _ _ => 0) 1)) :=
  ⟨⟨rfl,
    (adjKernel_layerwise_and_caching.1 ⟨true, none⟩ true 1 1 (fun _ _ _ => 0)
      (fun _ _ _ => 0) rfl).2⟩,
   rfl,
   (adjKernel_layerwise_and_caching.2.1 ⟨false, none⟩ true 1 1
      (fun _ _ _ => 0) (fun _ _ _ => 0) rfl).1⟩

/-- Counterexample to C10 as stated: in `test` mode, with the window
complete (`nbdisplay = 1`, one batch accumulated), `_update_buffer` does
not append the tracked statistics to their files — the write list is empty
rather than one append per tracked statistic. -/
theorem updateBuffer_test_mode_writes_nothing :
    ((updateBuffer SMode.test 1 initBuffer).writes).map Prod.fst
      ≠ statsNames := by
  have h : (updateBuffer SMode.test 1 initBuffer).writes = [] := rfl
  rw [h]
  simp [statsNames]

/-- C10 as amended: once the window of `nbdisplay` batches is complete,
`_update_buffer` normalizes the buffered statistics (loss and kernel by
the window size; `avg1`/`std1` and `avg0`/`std0` by the observed positive
and negative label counts, with the variance floored at zero before the
square root), resets the buffers and batch counter to zero, and prints a
summary line — but appends the tracked statistics to their
comma-separated files only in `train` mode; in `test` mode nothing is
written and the printed summary omits the loss statistic.  Before the
window completes, only the batch counter is incremented. -/
theorem updateBuffer_window_semantics :
    ∀ (mode : SMode) (nbdisplay : ℕ) (bf : SBuf),
      (nbdisplay ≤ bf.nbBatch + 1 →
        (updateBuffer mode nbdisplay bf).buf = initBuffer
        ∧ (mode = SMode.train →
            (updateBuffer mode nbdisplay bf).writes
              = statsNames.map (fun s =>
                  (s, statGet
                    (normalizeBuf nbdisplay
                      { bf with nbBatch := bf.nbBatch + 1 }) s))
            ∧ (updateBuffer mode nbdisplay bf).printed = statsNames)
        ∧ (mode = SMode.test →
            (updateBuffer mode nbdisplay bf).writes = []
            ∧ (updateBuffer mode nbdisplay bf).printed
                = ["kernel", "avg0", "avg1", "std0", "std1"]))
      ∧ (bf.nbBatch + 1 < nbdisplay →
          (updateBuffer mode nbdisplay bf).writes = []
          ∧ (updateBuffer mode nbdisplay bf).printed = []
          ∧ (updateBuffer mode nbdisplay bf).buf
              = { bf with nbBatch := bf.nbBatch + 1 })
      ∧ (normalizeBuf nbdisplay bf).loss = bf.loss / (nbdisplay : ℝ)
      ∧ (normalizeBuf nbdisplay bf).kernel = bf.kernel / (nbdisplay : ℝ)
      ∧ (0 < bf.nbOnes →
          (normalizeBuf nbdisplay bf).avg1 = bf.avg1 / bf.nbOnes
          ∧ (normalizeBuf nbdisplay bf).std1
              = Real.sqrt
                  (max 0 (bf.std1 / bf.nbOnes - (bf.avg1 / bf.nbOnes) ^ 2)))
      ∧ (0 < bf.nbZero →
          (normalizeBuf nbdisplay bf).avg0 = bf.avg0 / bf.nbZero
          ∧ (normalizeBuf nbdisplay bf).std0
              = Real.sqrt
                  (max 0 (bf.std0 / bf.nbZero
                    - (bf.avg0 / bf.nbZero) ^ 2))) := by
  have hz_avg1 : ∀ c : SBuf, (normZero c).avg1 = c.avg1 := by
    intro c; unfold normZero; split_ifs <;> rfl
  have hz_std1 : ∀ c : SBuf, (normZero c).std1 = c.std1 := by
    intro c; unfold normZero; split_ifs <;> rfl
  have hz_loss : ∀ c : SBuf, (normZero c).loss = c.loss := by
    intro c; unfold normZero; split_ifs <;> rfl
  have hz_kernel : ∀ c : SBuf, (normZero c).kernel = c.kernel := by
    intro c; unfold normZero; split_ifs <;> rfl
  have ho_loss : ∀ c : SBuf, (normOnes c).loss = c.loss := by
    intro c; unfold normOnes; split_ifs <;> rfl
  have ho_kernel : ∀ c : SBuf, (normOnes c).kernel = c.kernel := by
    intro c; unfold normOnes; split_ifs <;> rfl
  have ho_avg0 : ∀ c : SBuf, (normOnes c).avg0 = c.avg0 := by
    intro c; unfold normOnes; split_ifs <;> rfl
  have ho_std0 : ∀ c : SBuf, (normOnes c).std0 = c.std0 := by
    intro c; unfold normOnes; split_ifs <;> rfl
  have ho_nbZero : ∀ c : SBuf, (normOnes c).nbZero = c.nbZero := by
    intro c; unfold normOnes; split_ifs <;> rfl
  intro mode nbdisplay bf
  refine ⟨?_, ?_, ?_, ?_, ?_, ?_⟩
  · intro h
    cases mode with
    | train =>
      refine ⟨?_, fun _ => ⟨?_, ?_⟩, fun hc => SMode.noConfusion hc⟩ <;>
        simp [updateBuffer, h]
    | test =>
      refine ⟨?_, fun hc => SMode.noConfusion hc, fun _ => ⟨?_, ?_⟩⟩ <;>
        simp [updateBuffer, h, statsNames]
  · intro h
    have h' : ¬ nbdisplay ≤ bf.nbBatch + 1 := by omega
    cases mode <;> exact ⟨by simp [updateBuffer, h'],
      by simp [updateBuffer, h'], by simp [updateBuffer, h']⟩
  · unfold normalizeBuf
    rw [hz_loss, ho_loss]
  · unfold normalizeBuf
    rw [hz_kernel, ho_kernel]
  · intro h1
    unfold normalizeBuf
    rw [hz_avg1, hz_std1]
    unfold normOnes
    split_ifs with hc
    · exact ⟨rfl, rfl⟩
    · exact absurd h1 hc
  · intro h0
    unfold normalizeBuf normZero
    rw [ho_avg0, ho_std0, ho_nbZero]
    split_ifs with hc
    · exact ⟨rfl, rfl⟩
    · exact absurd h0 hc

/-- Witness for C10 (amended): a concrete train-mode window completion
that resets the buffer, and a concrete normalization with one positive
label observed. -/
theorem updateBuffer_window_semantics_witness :
    (1 ≤ initBuffer.nbBatch + 1
      ∧ (updateBuffer SMode.train 1 initBuffer).buf = initBuffer)
    ∧ ((0 : ℝ) < (1 : ℝ)
      ∧ (normalizeBuf 2 { initBuffer with nbOnes := 1, avg1 := 3 }).avg1
          = 3 / 1) :=
  ⟨⟨by decide,
    ((updateBuffer_window_semantics SMode.train 1 initBuffer).1
      (by decide)).1⟩,
   by norm_num,
   ((updateBuffer_window_semantics SMode.train 2
      { initBuffer with nbOnes := 1, avg1 := 3 }).2.2.2.2.1
      (by norm_num : (0 : ℝ) < 1)).1⟩

end RealThms

end PhysicsGnn
